import Mathlib

/-!
Verification of the arteus-council backend (three-stage LLM council
orchestration) against its natural-language specification.

The Python sources under `backend/` are shallowly embedded as pure Lean
functions.  Network I/O is represented by explicit outcome values: every
provider call is abstracted as the `Option LLMResult` it eventually
delivers (with `none` as the uniform failure sentinel the code uses), and
concurrency is represented by completion schedules quantified over all
permutations.  Python `dict` values built by comprehensions are embedded
as association lists with first-occurrence key order and last-write-wins
values, exactly matching CPython assignment semantics.
-/

/-! ## Python dict embedding

`{model: response for model, response in zip(models, responses)}` builds a
CPython dict: a key keeps the position of its first insertion and the
value of its last assignment.  `pyDictInsert` is one assignment `d[k] = v`
and `pyDictOfList` folds a pair list into a dict, as the comprehension
does. -/
def pyDictInsert {α : Type} : List (String × α) → String → α → List (String × α)
  | [], k, v => [(k, v)]
  | (k0, v0) :: rest, k, v =>
    if k0 = k then (k, v) :: rest else (k0, v0) :: pyDictInsert rest k v

def pyDictOfList {α : Type} (l : List (String × α)) : List (String × α) :=
  l.foldl (fun d p => pyDictInsert d p.1 p.2) []

/-- Python `d[k]` / `d.get(k)`: first (hence only, for a real dict) entry. -/
def pyLookup {α : Type} (k : String) : List (String × α) → Option α
  | [] => none
  | (k0, v) :: rest => if k0 = k then some v else pyLookup k rest

/-- Value of the last pair carrying key `k`, used to state last-write-wins. -/
def lastLookup {α : Type} (k : String) : List (String × α) → Option α
  | [] => none
  | (k0, v) :: rest =>
    match lastLookup k rest with
    | some v1 => some v1
    | none => if k0 = k then some v else none

/-! ## `llm.query_models_parallel` / `openrouter.query_models_parallel`

`backend/llm.py` and `backend/openrouter.py` both run one task per element
of `models` (`tasks = [_query_and_callback(model) for model in models]`),
`await asyncio.gather(*tasks)` (which preserves the positional order of
results and returns only once every task has resolved), and build
`{model: response for model, response in zip(models, responses)}`.

Each task's network interaction is abstracted by the position-indexed list
`outcomes`: `outcomes[i]` is what the `i`-th task's `query_model` call
delivers (`none` = the uniform failure sentinel). -/
structure LLMResult where
  content : String
  reasoning_details : String
deriving DecidableEq, Repr

/-- `llm.query_models_parallel`: the dict produced from `zip(models, responses)`. -/
def query_models_parallel (models : List String) (outcomes : List (Option LLMResult)) :
    List (String × Option LLMResult) :=
  pyDictOfList (models.zip outcomes)

/-- One provider call as `openrouter._query_with_timeout` observes it:
`duration` is the call's wall-clock time, `result` what `query_model`
would deliver were it awaited to completion. -/
structure CallBehavior where
  duration : Nat
  result : Option LLMResult
deriving DecidableEq, Repr

/-- `openrouter._query_with_timeout`: `asyncio.wait_for(query_model(...), timeout)`
abandons the call and returns `None` once `timeout` elapses; otherwise the
call's own result is passed through. -/
def query_with_timeout (timeout : Nat) (b : CallBehavior) : Option LLMResult :=
  if timeout < b.duration then none else b.result

/-- `openrouter.query_models_parallel`: per-call timeout wrapper, then the
same gather-and-zip dict construction as `llm.query_models_parallel`. -/
def openrouter_query_models_parallel (models : List String)
    (behaviors : List CallBehavior) (timeout : Nat) :
    List (String × Option LLMResult) :=
  query_models_parallel models (behaviors.map (query_with_timeout timeout))

/-! ### Completion trace of one fanout

`asyncio.gather` resolves the per-model tasks in a nondeterministic order;
`sched`, a permutation of the task indices, names one such completion
order.  Each task resolves its `query_model` call and then immediately
invokes `on_model_complete(model, response)` (`_query_and_callback`);
`gather` returns the result map strictly afterwards. -/
inductive FanoutEvent where
  | resolved (idx : Nat)
  | callback (idx : Nat) (model : String) (result : Option LLMResult)
  | returned (resultMap : List (String × Option LLMResult))
deriving DecidableEq, Repr

def fanoutStep (models : List String) (outcomes : List (Option LLMResult)) (i : Nat) :
    List FanoutEvent :=
  [FanoutEvent.resolved i, FanoutEvent.callback i (models.getD i "") (outcomes.getD i none)]

def fanoutBody (models : List String) (outcomes : List (Option LLMResult))
    (sched : List Nat) : List FanoutEvent :=
  sched.flatMap (fanoutStep models outcomes)

def fanoutTrace (models : List String) (outcomes : List (Option LLMResult))
    (sched : List Nat) : List FanoutEvent :=
  fanoutBody models outcomes sched ++
    [FanoutEvent.returned (query_models_parallel models outcomes)]

/-! ## Provider adapters (`openrouter.py`, `yandex_adapter.py`, `gigachat_adapter.py`)

Each adapter's single outbound HTTP interaction is abstracted as an
`HttpAttempt`: the request either times out (`httpx.TimeoutException`),
fails with some other exception (network error), or yields a response
with a status code and a body.  `raise_for_status()` raises for any
non-2xx status; a body is either unparseable JSON (so `response.json()`
raises) or the parsed structure the adapter walks.  Every raising path
lands in an `except` clause that logs and returns `None`, which is why
the embedded functions are total with `none` for every failure case. -/
/-- Python truthiness of an optional string: `None` and `""` are falsy. -/
def pyFalsy (s : Option String) : Bool :=
  match s with
  | none => true
  | some s0 => decide (s0 = "")

/-- `response.raise_for_status()`: httpx raises `HTTPStatusError` for every
status outside `2xx` — informational `1xx` and redirect `3xx` responses
included (these clients do not enable `follow_redirects`). -/
def raise_for_status (status : Nat) : Bool :=
  decide (status < 200) || decide (300 ≤ status)

/-- Python `a or b` for an optional string `a` and default `b`. -/
def pyOrStr (a : Option String) (b : String) : String :=
  match a with
  | some s => if s = "" then b else s
  | none => b

inductive HttpAttempt (β : Type) where
  | timeout
  | networkError
  | response (status : Nat) (body : β)
deriving DecidableEq, Repr

/-- `choices[0]['message']` fields: `content`, and the three reasoning
fields OpenRouter may use; absent keys are `none`. -/
structure ORMessage where
  content : Option String
  reasoning : Option String
  reasoning_content : Option String
  reasoning_details : Option String
deriving DecidableEq, Repr

/-- One element of `data['choices']`; a missing `'message'` key raises
`KeyError`, caught by the blanket `except`. -/
structure ORChoice where
  message : Option ORMessage
deriving DecidableEq, Repr

inductive ORBody where
  | invalidJson
  | json (choices : List ORChoice)
deriving DecidableEq, Repr

/-- `openrouter.query_model`: returns `{'content': ..., 'reasoning_details': ...}`
on a parseable 2xx response with a first choice carrying a message, and
`None` on timeout, network error, non-2xx status, malformed body or empty
`choices`. -/
def openrouter_query_model (att : HttpAttempt ORBody) : Option LLMResult :=
  match att with
  | .timeout => none
  | .networkError => none
  | .response status body =>
    if raise_for_status status then none
    else
      match body with
      | .invalidJson => none
      | .json choices =>
        match choices with
        | [] => none
        | c :: _ =>
          match c.message with
          | none => none
          | some m =>
            some { content := pyOrStr m.content "",
                   reasoning_details :=
                     pyOrStr m.reasoning
                       (pyOrStr m.reasoning_content (pyOrStr m.reasoning_details "")) }

structure YMsg where
  text : Option String
deriving DecidableEq, Repr

/-- One element of `result['alternatives']`; `.get("message", {})` makes a
missing message key yield the empty-string content. -/
structure YAlt where
  message : Option YMsg
deriving DecidableEq, Repr

inductive YBody where
  | invalidJson
  | json (alternatives : List YAlt)
deriving DecidableEq, Repr

/-- `yandex_adapter.query_model`: missing/empty `YANDEX_API_KEY` or
`YANDEX_FOLDER_ID` short-circuits to `None`; a single blanket `except`
turns every raising path (timeout included) into `None`. -/
def yandex_query_model (apiKey folderId : Option String) (att : HttpAttempt YBody) :
    Option LLMResult :=
  if pyFalsy apiKey || pyFalsy folderId then none
  else
    match att with
    | .timeout => none
    | .networkError => none
    | .response status body =>
      if raise_for_status status then none
      else
        match body with
        | .invalidJson => none
        | .json alternatives =>
          match alternatives with
          | [] => none
          | a :: _ =>
            some { content := (match a.message with
                               | some m => m.text.getD ""
                               | none => ""),
                   reasoning_details := "" }

structure GMsg where
  content : String
deriving DecidableEq, Repr

structure GChoice where
  message : GMsg
deriving DecidableEq, Repr

/-- Outcome of the GigaChat SDK call: any raised exception, a falsy
response object, or a response with its choices list. -/
inductive GigaAttempt where
  | sdkError
  | respNone
  | response (choices : List GChoice)
deriving DecidableEq, Repr

/-- `gigachat_adapter.query_model` / `_execute_query`: missing credentials
short-circuit to `None`; `if not response or not response.choices` and the
blanket `except` cover the remaining failure paths. -/
def gigachat_query_model (credentials : Option String) (att : GigaAttempt) :
    Option LLMResult :=
  if pyFalsy credentials then none
  else
    match att with
    | .sdkError => none
    | .respNone => none
    | .response choices =>
      match choices with
      | [] => none
      | c :: _ => some { content := c.message.content, reasoning_details := "" }

/-! ## `firecrawl.py`: URL enrichment

`extract_urls` (a regex scan) and the two scraping oracles (`scrape_url`'s
HTTP behavior and `urlparse(...).netloc`) are I/O-dependent, so they enter
the embedding as explicit function parameters; the enrichment and
metadata-building logic of `enrich_message_with_scraped_content`,
`ScrapedLink.to_dict` and `process_message_links` is embedded directly. -/
structure ScrapedLink where
  url : String
  success : Bool
  title : Option String
  description : Option String
  og_image : Option String
  markdown : Option String
deriving DecidableEq, Repr

structure LinkMeta where
  url : String
  success : Bool
  title : Option String
  description : Option String
  og_image : Option String
  domain : Option String
  markdown : Option String
deriving DecidableEq, Repr

/-- Python string slice `md[:n]` (slicing counts characters, as `List.take`
on the character data does). -/
def pyTruncate (md : String) (n : Nat) : String :=
  String.mk (md.data.take n)

/-- `ScrapedLink.to_dict`: the JSON dict stored as link metadata;
`urlparse(self.url).netloc if self.url else None` with `netloc` abstracted. -/
def to_dict (netloc : String → String) (l : ScrapedLink) : LinkMeta :=
  { url := l.url, success := l.success, title := l.title,
    description := l.description, og_image := l.og_image,
    domain := if l.url = "" then none else some (netloc l.url),
    markdown := l.markdown }

/-- `enrich_message_with_scraped_content`: starts from `[text]`, appends one
`<link_content>` block per link with `link.success and link.markdown` truthy
(markdown truncated to 50000 characters), and joins with `""`. -/
def enrich_message_with_scraped_content (text : String)
    (scraped_links : List ScrapedLink) : String :=
  String.join (scraped_links.foldl
    (fun parts link =>
      if link.success && !(pyFalsy link.markdown) then
        parts ++ ["\n\n<link_content url=\"" ++ link.url ++ "\">\n" ++
          pyTruncate (link.markdown.getD "") 50000 ++ "\n</link_content>"]
      else parts)
    [text])

/-- `process_message_links`: extracts URLs, returns `(text, [], {})` when
none are present, and otherwise scrapes all URLs and returns the enriched
text, one `to_dict` metadata entry per URL, and the URL→success dict. -/
def process_message_links (extract : String → List String)
    (scrape : String → ScrapedLink) (netloc : String → String) (text : String) :
    String × List LinkMeta × List (String × Bool) :=
  let urls := extract text
  if urls = [] then (text, [], [])
  else
    let scraped := urls.map scrape
    let scrape_status := pyDictOfList (scraped.map (fun l => (l.url, l.success)))
    let link_metadata := scraped.map (to_dict netloc)
    let enriched := enrich_message_with_scraped_content text scraped
    (enriched, link_metadata, scrape_status)

/-- Fixture: what `extract_urls` returns on the text `"see example.com"`
(the regex matches the bare domain and prepends `https://`). -/
def ex_extract : String → List String := fun _ => ["https://example.com"]

/-- Fixture: a scrape in which every URL fails (`ScrapedLink(url, success=False)`). -/
def ex_scrape : String → ScrapedLink := fun u => ⟨u, false, none, none, none, none⟩

/-- Fixture for `urlparse(...).netloc`. -/
def ex_netloc : String → String := fun _ => "example.com"

/-! ## Council data model

`backend/council.py` is imported by `main.py` but is not part of the
available sources, so the data shapes its stage functions produce are
modelled from the specification (§3); the code in `main.py`,
`storage.py` and `leads_storage.py` below only stores and forwards them. -/
/-- Modelled from the spec: `Stage1Result` (§3) — one per requested model,
created when its call resolves, never mutated. -/
structure Stage1Result where
  model : String
  content : String
  reasoningTrace : String
  succeeded : Bool
deriving DecidableEq, Repr

/-- Modelled from the spec: `Stage2Verdict` (§3) — one judge's total order of
labels plus critique. -/
structure Stage2Verdict where
  judgeModel : String
  orderedLabels : List String
  critique : String
  succeeded : Bool
deriving DecidableEq, Repr

/-- A Python dict with string keys and string values, as persisted for the
Stage-3 payload (for example the interruption sentinel in `main.py`). -/
abbrev PyStrDict := List (String × String)

/-! ## `storage.py`: JSON file storage -/
/-- `re.sub(r'[^a-zA-Z0-9_-]', '_', session_id)`. -/
def sanitize_session_id (s : String) : String :=
  String.mk (s.data.map (fun c =>
    if c.isAlphanum || c = '_' || c = '-' then c else '_'))

inductive StoredMessage where
  | user (content : String)
  | assistant (stage1 : List Stage1Result) (stage2 : List Stage2Verdict) (stage3 : PyStrDict)
deriving DecidableEq, Repr

structure Conversation where
  id : String
  created_at : String
  title : String
  messages : List StoredMessage
deriving DecidableEq, Repr

/-- The data directory as a map from file paths to parsed conversation
files (`none` = no such file). -/
abbrev FileStore := String → Option Conversation

/-- `os.path.join(get_session_dir(session_id), f"{conversation_id}.json")`. -/
def get_conversation_path (session_id conversation_id : String) : String :=
  sanitize_session_id session_id ++ "/" ++ conversation_id ++ ".json"

/-- `storage.get_conversation`: `None` when the file does not exist. -/
def get_conversation (fs : FileStore) (session_id conversation_id : String) :
    Option Conversation :=
  fs (get_conversation_path session_id conversation_id)

/-- `storage.save_conversation`: writes the file at the path derived from
`conversation['id']`. -/
def save_conversation (fs : FileStore) (session_id : String) (c : Conversation) :
    FileStore :=
  fun p => if p = get_conversation_path session_id c.id then some c else fs p

/-- `storage.add_assistant_message`: raises `ValueError` when the
conversation does not exist, otherwise appends one assistant message with
the three stage payloads and saves. -/
def add_assistant_message (fs : FileStore) (session_id conversation_id : String)
    (stage1 : List Stage1Result) (stage2 : List Stage2Verdict) (stage3 : PyStrDict) :
    Except String FileStore :=
  match get_conversation fs session_id conversation_id with
  | none => Except.error ("Conversation " ++ conversation_id ++ " not found")
  | some c =>
    Except.ok (save_conversation fs session_id
      { c with messages := c.messages ++ [StoredMessage.assistant stage1 stage2 stage3] })

/-! ## `leads_storage.py`: MongoDB storage (leads mode) -/
inductive LeadsMessage where
  | user (content : String)
  | assistant (stage1 : List Stage1Result) (stage2 : List Stage2Verdict)
      (stage3 : PyStrDict) (scrapedLinks : Option (List LinkMeta))
deriving DecidableEq, Repr

structure LeadsConversation where
  id : String
  session_id : String
  title : String
  messages : List LeadsMessage
  deleted : Bool
deriving DecidableEq, Repr

/-- The `conversations` collection as a map from the `update_one` filter key
`(_id, session_id)` to the stored document. -/
abbrev MongoStore := String × String → Option LeadsConversation

/-- The `message_data` dict built by `leads_storage.add_assistant_message`:
`stage1 or []` and `stage2 or []` are the identity on lists, and
`scrapedLinks` is attached only when `scraped_links` is truthy (neither
`None` nor `[]`). -/
def leads_message_data (stage1 : List Stage1Result) (stage2 : List Stage2Verdict)
    (stage3 : PyStrDict) (scraped_links : Option (List LinkMeta)) : LeadsMessage :=
  LeadsMessage.assistant stage1 stage2 stage3
    (match scraped_links with
     | some (x :: xs) => some (x :: xs)
     | _ => none)

/-- `leads_storage.add_assistant_message`: `update_one` with a `$push` on the
`(_id, session_id)` filter; `matched_count == 0` raises `ValueError`. -/
def leads_add_assistant_message (db : MongoStore) (session_id conversation_id : String)
    (stage1 : List Stage1Result) (stage2 : List Stage2Verdict) (stage3 : PyStrDict)
    (scraped_links : Option (List LinkMeta)) : Except String MongoStore :=
  match db (conversation_id, session_id) with
  | none => Except.error ("Conversation " ++ conversation_id ++ " not found")
  | some c =>
    Except.ok (fun key =>
      if key = (conversation_id, session_id) then
        some { c with messages :=
          c.messages ++ [leads_message_data stage1 stage2 stage3 scraped_links] }
      else db key)

/-! ## `council.calculate_aggregate_rankings`

`backend/council.py` is not among the available sources (`main.py` imports
`calculate_aggregate_rankings` from it), so the aggregation is modelled from
the specification, §4.4 "Aggregation to AggregateRanking". -/
/-- Modelled from the spec: walking one verdict's ordered label list from
position `i`, a label at position `p` earns `k - 1 - p` points for the model
it de-anonymizes to (`k` = panel of anonymized answers), per the
Borda-count scheme of §4.4. -/
def pointsFrom (k : Nat) (label_to_model : List (String × String)) (m : String) :
    Nat → List String → Int
  | _, [] => 0
  | i, label :: rest =>
    (if pyLookup label label_to_model = some m then (k : Int) - 1 - (i : Int) else 0) +
      pointsFrom k label_to_model m (i + 1) rest

/-- Modelled from the spec: the points one verdict awards to model `m`. -/
def verdict_points (k : Nat) (label_to_model : List (String × String)) (m : String)
    (ranking : List String) : Int :=
  pointsFrom k label_to_model m 0 ranking

/-- Modelled from the spec: "Sum points per underlying model across all
verdicts" — total Borda score of model `m` over the verdict set. -/
def model_score (verdicts : List Stage2Verdict)
    (label_to_model : List (String × String)) (m : String) : Int :=
  (verdicts.map (fun v =>
    verdict_points label_to_model.length label_to_model m v.orderedLabels)).sum

/-- Insertion into a list sorted by the boolean order `le`. -/
def insertSorted {α : Type} (le : α → α → Bool) (x : α) : List α → List α
  | [] => [x]
  | y :: ys => if le x y then x :: y :: ys else y :: insertSorted le x ys

/-- Insertion sort; a deterministic, kernel-computable sort used for the
spec's "sort descending by total score" with the documented deterministic
tie-break. -/
def insSort {α : Type} (le : α → α → Bool) : List α → List α
  | [] => []
  | x :: xs => insertSorted le x (insSort le xs)

/-- Modelled from the spec: descending by score, ties broken by
lexicographically ascending model id (a deterministic documented rule,
per §4.4 and §9). -/
def aggLE (a b : String × Int) : Bool :=
  decide (b.2 < a.2) || (decide (a.2 = b.2) && decide (a.1 ≤ b.1))

structure AggregateEntry where
  model : String
  score : Int
  rank : Nat
deriving DecidableEq, Repr

/-- Ranks `1, 2, ...` attached in sorted order. -/
def attachRanks : Nat → List (String × Int) → List AggregateEntry
  | _, [] => []
  | r, (m, s) :: rest => ⟨m, s, r⟩ :: attachRanks (r + 1) rest

/-- Modelled from the spec: `calculate_aggregate_rankings(stage2_results,
label_to_model)` — Borda scores per de-anonymized model, sorted descending
with deterministic tie-break, ranks attached. -/
def calculate_aggregate_rankings (verdicts : List Stage2Verdict)
    (label_to_model : List (String × String)) : List AggregateEntry :=
  attachRanks 1 (insSort aggLE
    ((label_to_model.map Prod.snd).map
      (fun m => (m, model_score verdicts label_to_model m))))

/-! ## `main.py` streaming cancellation (`except asyncio.CancelledError`)

At the moment the client disconnects, every task the generator has created
(`running_tasks`) is in one of four states; `None` fields mean the task was
never created (e.g. no scraping, not the first message, cancellation before
that stage started). -/
inductive TaskOutcome (α : Type) where
  | running
  | cancelled
  | failed
  | completed (r : α)
deriving DecidableEq, Repr

/-- Task states at cancellation time for the tasks `event_generator` appends
to `running_tasks`: scraping, title, and the three stage tasks. -/
structure CancelCtx where
  scraping : Option (TaskOutcome Unit)
  title : Option (TaskOutcome Unit)
  stage1 : Option (TaskOutcome (List Stage1Result))
  stage2 : Option (TaskOutcome (List Stage2Verdict × List (String × String)))
  stage3 : Option (TaskOutcome PyStrDict)

/-- The assistant message persisted by `storage.add_assistant_message` from
inside the cancellation handler. -/
structure SavedAssistantMessage where
  stage1 : List Stage1Result
  stage2 : List Stage2Verdict
  stage3 : PyStrDict
deriving DecidableEq, Repr

/-- `{"model": "system", "response": "Processing was interrupted. ..."}`. -/
def interrupted_sentinel : PyStrDict :=
  [("model", "system"),
   ("response", "Processing was interrupted. Please refresh to retry.")]

/-- `task.done() and not task.cancelled()` followed by `task.result()`:
yields the result only for a successfully completed task (a raised
exception is swallowed by the `except` around `task.result()`). -/
def partialOf {α : Type} (t : Option (TaskOutcome α)) : Option α :=
  match t with
  | some (TaskOutcome.completed r) => some r
  | _ => none

/-- Python truthiness of `partial_stage3` (an optional dict): truthy iff
present and non-empty. -/
def pyTruthyDict (o : Option PyStrDict) : Bool :=
  match o with
  | some (_ :: _) => true
  | _ => false

/-- `for task in running_tasks: if not task.done(): task.cancel()`. -/
def cancelRunning {α : Type} (t : Option (TaskOutcome α)) : Option (TaskOutcome α) :=
  t.map (fun s =>
    match s with
    | TaskOutcome.running => TaskOutcome.cancelled
    | s0 => s0)

/-- The `except asyncio.CancelledError` handler of `event_generator`
(`send_message_stream`): collects partial results of completed stage tasks,
persists one assistant message when stage 1 or stage 3 contributed
(substituting the interruption sentinel for a missing stage 3), cancels all
still-running tasks, and re-raises (`raise`) — the `true` flag. -/
def cancellation_handler (ctx : CancelCtx) :
    Option SavedAssistantMessage × CancelCtx × Bool :=
  let partial_stage1 := (partialOf ctx.stage1).getD []
  let partial_stage2 :=
    match partialOf ctx.stage2 with
    | some p => p.1
    | none => []
  let partial_stage3 := partialOf ctx.stage3
  let saved :=
    if !partial_stage1.isEmpty || pyTruthyDict partial_stage3 then
      some { stage1 := partial_stage1, stage2 := partial_stage2,
             stage3 :=
               match partial_stage3 with
               | some (x :: xs) => x :: xs
               | _ => interrupted_sentinel }
    else none
  (saved,
   ⟨cancelRunning ctx.scraping, cancelRunning ctx.title, cancelRunning ctx.stage1,
    cancelRunning ctx.stage2, cancelRunning ctx.stage3⟩,
   true)

/-! ## `main.py` `event_generator`: program order of the streamed run

The generator body is straight-line `async` code; its observable actions in
program order are embedded as a `GenStep` list.  Awaiting a stage task is the
`while not task.done()` loop: each iteration flushes pending
`<stage>_model_complete` events and emits one heartbeat (`rounds` gives the
number of model completions flushed per iteration, `leftover` the flush after
the loop), then `task.result()` is read. -/
inductive GenStep where
  | emit (name : String)
  | heartbeat
  | createTask (name : String)
  | getResult (name : String)
  | persistMsg
deriving DecidableEq, Repr

def modelCompleteBurst (evName : String) (n : Nat) : List GenStep :=
  List.replicate n (GenStep.emit evName)

def stageLoop (evName : String) (rounds : List Nat) (leftover : Nat) : List GenStep :=
  (rounds.map (fun n => modelCompleteBurst evName n ++ [GenStep.heartbeat])).flatten ++
    modelCompleteBurst evName leftover

def scrapingSection (hasUrls : Bool) (scrapeRounds : Nat) (ok : Bool) : List GenStep :=
  if hasUrls then
    [GenStep.emit "scraping_start", GenStep.createTask "scraping"] ++
      List.replicate scrapeRounds GenStep.heartbeat ++
      [GenStep.getResult "scraping",
       GenStep.emit (if ok then "scraping_complete" else "scraping_error")]
  else []

/-- The happy-path program order of `event_generator` in
`send_message_stream` (the leads-mode `event_generator` of
`send_leads_message_stream` is line-for-line identical in this ordering):
scraping, optional title task creation, Stage 1 (start event, task creation,
await loop, result, complete event), Stage 2 likewise, Stage 3, optional
title await, persistence, final `complete`. -/
def event_generator (hasUrls : Bool) (scrapeRounds : Nat) (scrapeOk : Bool)
    (isFirst : Bool) (rounds1 : List Nat) (leftover1 : Nat)
    (rounds2 : List Nat) (leftover2 : Nat) (hb3 hbTitle : Nat) : List GenStep :=
  scrapingSection hasUrls scrapeRounds scrapeOk ++
  (if isFirst then [GenStep.createTask "title"] else []) ++
  [GenStep.emit "stage1_start", GenStep.createTask "stage1"] ++
  stageLoop "stage1_model_complete" rounds1 leftover1 ++
  [GenStep.getResult "stage1", GenStep.emit "stage1_complete",
   GenStep.emit "stage2_start", GenStep.createTask "stage2"] ++
  stageLoop "stage2_model_complete" rounds2 leftover2 ++
  [GenStep.getResult "stage2", GenStep.emit "stage2_complete",
   GenStep.emit "stage3_start", GenStep.createTask "stage3"] ++
  List.replicate hb3 GenStep.heartbeat ++
  [GenStep.getResult "stage3", GenStep.emit "stage3_complete"] ++
  (if isFirst then
    List.replicate hbTitle GenStep.heartbeat ++
      [GenStep.getResult "title", GenStep.emit "title_complete"]
  else []) ++
  [GenStep.persistMsg, GenStep.emit "complete"]

/-! ## Theorems -/

theorem pyLookup_pyDictInsert {α : Type} (d : List (String × α)) (k k1 : String) (v : α) :
    pyLookup k (pyDictInsert d k1 v) = if k1 = k then some v else pyLookup k d := by
  induction d with
  | nil => simp [pyDictInsert, pyLookup]
  | cons p rest ih =>
    obtain ⟨k0, v0⟩ := p
    by_cases h0 : k0 = k1
    · subst h0
      by_cases hk : k0 = k <;> simp [pyDictInsert, pyLookup, hk]
    · by_cases hk : k0 = k
      · subst hk
        have h1 : ¬ k1 = k0 := fun he => h0 he.symm
        simp [pyDictInsert, pyLookup, h0, h1]
      · simp [pyDictInsert, pyLookup, h0, hk, ih]

theorem keys_pyDictInsert {α : Type} (d : List (String × α)) (k : String) (v : α) :
    (pyDictInsert d k v).map Prod.fst =
      if k ∈ d.map Prod.fst then d.map Prod.fst else d.map Prod.fst ++ [k] := by
  induction d with
  | nil => simp [pyDictInsert]
  | cons p rest ih =>
    obtain ⟨k0, v0⟩ := p
    by_cases h0 : k0 = k
    · subst h0; simp [pyDictInsert]
    · have h1 : ¬ k = k0 := fun he => h0 he.symm
      by_cases hm : k ∈ rest.map Prod.fst <;>
        simp [pyDictInsert, h0, h1, hm, ih]

theorem length_pyDictInsert_of_mem {α : Type} (d : List (String × α)) (k : String) (v : α)
    (h : k ∈ d.map Prod.fst) : (pyDictInsert d k v).length = d.length := by
  induction d with
  | nil => simp at h
  | cons p rest ih =>
    obtain ⟨k0, v0⟩ := p
    by_cases h0 : k0 = k
    · simp [pyDictInsert, h0]
    · have h1 : ¬ k = k0 := fun he => h0 he.symm
      rw [List.map_cons, List.mem_cons] at h
      rcases h with h | h
      · exact absurd h h1
      · simp [pyDictInsert, h0, ih h]

theorem length_pyDictInsert_le {α : Type} (d : List (String × α)) (k : String) (v : α) :
    (pyDictInsert d k v).length ≤ d.length + 1 := by
  induction d with
  | nil => simp [pyDictInsert]
  | cons p rest ih =>
    obtain ⟨k0, v0⟩ := p
    by_cases h0 : k0 = k
    · simp [pyDictInsert, h0]
    · simp [pyDictInsert, h0]
      omega

theorem pyDictInsert_of_not_mem {α : Type} (d : List (String × α)) (k : String) (v : α)
    (h : ¬ k ∈ d.map Prod.fst) : pyDictInsert d k v = d ++ [(k, v)] := by
  induction d with
  | nil => simp [pyDictInsert]
  | cons p rest ih =>
    obtain ⟨k0, v0⟩ := p
    rw [List.map_cons, List.mem_cons] at h
    push_neg at h
    have h0 : ¬ k0 = k := fun he => h.1 he.symm
    simp [pyDictInsert, h0, ih h.2]

theorem mem_keys_pyDictInsert {α : Type} (d : List (String × α)) (k k1 : String) (v : α) :
    k1 ∈ (pyDictInsert d k v).map Prod.fst ↔ k1 ∈ d.map Prod.fst ∨ k1 = k := by
  rw [keys_pyDictInsert]
  by_cases hm : k ∈ d.map Prod.fst
  · simp only [hm, if_true]
    constructor
    · exact fun h => Or.inl h
    · rintro (h | rfl)
      · exact h
      · exact hm
  · simp [hm]

/-- Folding inserts over pairs with pairwise-distinct keys just appends them. -/
theorem foldl_pyDictInsert_nodup {α : Type} (l : List (String × α)) :
    ∀ acc : List (String × α),
      ((acc ++ l).map Prod.fst).Nodup →
      l.foldl (fun d p => pyDictInsert d p.1 p.2) acc = acc ++ l := by
  induction l with
  | nil => intro acc _; simp
  | cons p rest ih =>
    intro acc hnd
    obtain ⟨k, v⟩ := p
    have hk : ¬ k ∈ acc.map Prod.fst := by
      intro hmem
      have : ¬ ((acc ++ (k, v) :: rest).map Prod.fst).Nodup := by
        simp only [List.map_append, List.map_cons]
        intro hcontra
        have := List.Nodup.not_mem (List.Nodup.of_append_right hcontra)
        have hdisj := (List.nodup_append.1 hcontra).2.2
        exact hdisj hmem (by simp)
      exact this hnd
    have hstep : pyDictInsert acc k v = acc ++ [(k, v)] := pyDictInsert_of_not_mem acc k v hk
    have hnd2 : (((acc ++ [(k, v)]) ++ rest).map Prod.fst).Nodup := by
      simpa using hnd
    calc ((k, v) :: rest).foldl (fun d p => pyDictInsert d p.1 p.2) acc
        = rest.foldl (fun d p => pyDictInsert d p.1 p.2) (acc ++ [(k, v)]) := by
          simp [List.foldl_cons, hstep]
      _ = (acc ++ [(k, v)]) ++ rest := ih (acc ++ [(k, v)]) hnd2
      _ = acc ++ (k, v) :: rest := by simp

theorem pyDictOfList_nodup {α : Type} (l : List (String × α))
    (h : (l.map Prod.fst).Nodup) : pyDictOfList l = l := by
  have := foldl_pyDictInsert_nodup l [] (by simpa using h)
  simpa [pyDictOfList] using this

theorem lastLookup_append_single {α : Type} (l : List (String × α)) (k k1 : String) (v : α) :
    lastLookup k (l ++ [(k1, v)]) =
      if k1 = k then some v else lastLookup k l := by
  induction l with
  | nil => simp [lastLookup]
  | cons p rest ih =>
    obtain ⟨k0, v0⟩ := p
    have hstep : lastLookup k ((k0, v0) :: rest ++ [(k1, v)]) =
        match lastLookup k (rest ++ [(k1, v)]) with
        | some v1 => some v1
        | none => if k0 = k then some v0 else none := rfl
    rw [hstep, ih]
    by_cases hk : k1 = k
    · simp [hk]
    · simp only [hk, if_false]
      rfl

/-- CPython dict comprehension semantics: looking a key up in the built dict
yields the value of the key's last occurrence in the source pair list. -/
theorem pyLookup_pyDictOfList (α : Type) (l : List (String × α)) (k : String) :
    pyLookup k (pyDictOfList l) = lastLookup k l := by
  induction l using List.reverseRecOn with
  | nil => simp [pyDictOfList, pyLookup, lastLookup]
  | append_singleton l p ih =>
    obtain ⟨k1, v⟩ := p
    have hfold : pyDictOfList (l ++ [(k1, v)]) = pyDictInsert (pyDictOfList l) k1 v := by
      simp [pyDictOfList, List.foldl_append]
    rw [hfold, pyLookup_pyDictInsert, lastLookup_append_single, ih]

theorem length_foldl_pyDictInsert_le {α : Type} (l : List (String × α)) :
    ∀ acc : List (String × α),
      (l.foldl (fun d p => pyDictInsert d p.1 p.2) acc).length ≤ acc.length + l.length := by
  induction l with
  | nil => intro acc; simp
  | cons p rest ih =>
    intro acc
    have h1 := length_pyDictInsert_le acc p.1 p.2
    have h2 := ih (pyDictInsert acc p.1 p.2)
    simp only [List.foldl_cons, List.length_cons]
    omega

theorem length_foldl_pyDictInsert_lt {α : Type} (l : List (String × α)) :
    ∀ acc : List (String × α),
      ((∃ p ∈ l, p.1 ∈ acc.map Prod.fst) ∨ ¬ (l.map Prod.fst).Nodup) →
      (l.foldl (fun d p => pyDictInsert d p.1 p.2) acc).length < acc.length + l.length := by
  induction l with
  | nil =>
    intro acc h
    rcases h with ⟨p, hp, _⟩ | h
    · simp at hp
    · simp at h
  | cons p rest ih =>
    intro acc h
    obtain ⟨k, v⟩ := p
    by_cases hmem : k ∈ acc.map Prod.fst
    · have hlen : (pyDictInsert acc k v).length = acc.length :=
        length_pyDictInsert_of_mem acc k v hmem
      have h2 := length_foldl_pyDictInsert_le rest (pyDictInsert acc k v)
      simp only [List.foldl_cons, List.length_cons]
      omega
    · have hlen : (pyDictInsert acc k v).length = acc.length + 1 := by
        rw [pyDictInsert_of_not_mem acc k v hmem]; simp
      have hnext : (∃ q ∈ rest, q.1 ∈ (pyDictInsert acc k v).map Prod.fst) ∨
          ¬ (rest.map Prod.fst).Nodup := by
        rcases h with ⟨q, hq, hqk⟩ | hnd
        · rcases List.mem_cons.1 hq with rfl | hq2
          · exact absurd hqk hmem
          · exact Or.inl ⟨q, hq2, (mem_keys_pyDictInsert acc k q.1 v).2 (Or.inl hqk)⟩
        · rw [List.map_cons, List.nodup_cons] at hnd
          push_neg at hnd
          by_cases hk : k ∈ rest.map Prod.fst
          · rcases List.mem_map.1 hk with ⟨q, hq, hqk⟩
            refine Or.inl ⟨q, hq, ?_⟩
            rw [hqk]
            exact (mem_keys_pyDictInsert acc k k v).2 (Or.inr rfl)
          · exact Or.inr (hnd hk)
      have h2 := ih (pyDictInsert acc k v) hnext
      simp only [List.foldl_cons, List.length_cons]
      omega

theorem pyLookup_zip_nodup {α : Type} (ks : List String) :
    ∀ (vs : List α) (i : Nat) (hi : i < ks.length), ks.Nodup → vs.length = ks.length →
      pyLookup (ks.get ⟨i, hi⟩) (ks.zip vs) = vs[i]? := by
  induction ks with
  | nil => intro vs i hi _ _; simp at hi
  | cons k rest ih =>
    intro vs i hi hnd hlen
    cases vs with
    | nil => simp at hlen
    | cons v vrest =>
      cases i with
      | zero => simp [pyLookup]
      | succ n =>
        have hn : n < rest.length := by simpa using hi
        have hne : ¬ k = rest.get ⟨n, hn⟩ := by
          intro he
          exact (List.nodup_cons.1 hnd).1 (he ▸ rest.get_mem n hn)
        have hget : (k :: rest).get ⟨n + 1, hi⟩ = rest.get ⟨n, hn⟩ := rfl
        rw [hget]
        have hrec := ih vrest n hn (List.nodup_cons.1 hnd).2 (by simpa using hlen)
        rw [List.getElem?_cons_succ]
        simp only [List.zip_cons_cons, pyLookup, hne, if_false]
        exact hrec

theorem count_callback_fanoutBody (models : List String) (outcomes : List (Option LLMResult))
    (sched : List Nat) (i : Nat) :
    (fanoutBody models outcomes sched).count
      (FanoutEvent.callback i (models.getD i "") (outcomes.getD i none)) = sched.count i := by
  induction sched with
  | nil => simp [fanoutBody]
  | cons j rest ih =>
    have hbody : fanoutBody models outcomes (j :: rest) =
        fanoutStep models outcomes j ++ fanoutBody models outcomes rest := rfl
    rw [hbody, List.count_append, ih]
    by_cases hj : j = i
    · subst hj
      simp [fanoutStep, List.count_cons]
      omega
    · have h1 : ¬ FanoutEvent.callback i (models.getD i "") (outcomes.getD i none) =
          FanoutEvent.callback j (models.getD j "") (outcomes.getD j none) := by
        intro he
        cases he
        exact hj rfl
      have h2 : ¬ FanoutEvent.callback i (models.getD i "") (outcomes.getD i none) =
          FanoutEvent.resolved j := by intro he; cases he
      simp [fanoutStep, List.count_cons, h1, h2, List.count_singleton, hj,
        fun he : i = j => hj he.symm]

theorem fanoutStep_segment (models : List String) (outcomes : List (Option LLMResult))
    (sched : List Nat) (i : Nat) (hmem : i ∈ sched) :
    ∃ t1 t2, fanoutBody models outcomes sched = t1 ++ fanoutStep models outcomes i ++ t2 := by
  induction sched with
  | nil => simp at hmem
  | cons j rest ih =>
    have hbody : fanoutBody models outcomes (j :: rest) =
        fanoutStep models outcomes j ++ fanoutBody models outcomes rest := rfl
    rcases List.mem_cons.1 hmem with rfl | hmem2
    · exact ⟨[], fanoutBody models outcomes rest, by rw [hbody]; simp⟩
    · obtain ⟨t1, t2, ht⟩ := ih hmem2
      refine ⟨fanoutStep models outcomes j ++ t1, t2, ?_⟩
      rw [hbody, ht]
      simp [List.append_assoc]

theorem resolved_mem_fanoutBody (models : List String) (outcomes : List (Option LLMResult))
    (sched : List Nat) (i : Nat) (hmem : i ∈ sched) :
    FanoutEvent.resolved i ∈ fanoutBody models outcomes sched :=
  List.mem_flatMap.2 ⟨i, hmem, by simp [fanoutStep]⟩

theorem getD_eq_get_of_lt {α : Type} (l : List α) (d : α) (i : Nat) (hi : i < l.length) :
    l.getD i d = l.get ⟨i, hi⟩ := by
  simp [List.getD_eq_getElem?_getD, List.getElem?_eq_getElem hi]

/-- In any completion schedule that is a permutation of the task indices, the
`on_model_complete` callback for task `i` fires exactly once in the trace. -/
theorem count_callback_fanoutTrace (models : List String) (outcomes : List (Option LLMResult))
    (sched : List Nat) (i : Nat) (hi : i < models.length)
    (hlen : outcomes.length = models.length)
    (hsched : List.Perm sched (List.range models.length)) :
    (fanoutTrace models outcomes sched).count
      (FanoutEvent.callback i (models.get ⟨i, hi⟩) (outcomes.get ⟨i, by omega⟩)) = 1 := by
  have hgd1 : models.getD i "" = models.get ⟨i, hi⟩ := getD_eq_get_of_lt models "" i hi
  have hgd2 : outcomes.getD i none = outcomes.get ⟨i, by omega⟩ :=
    getD_eq_get_of_lt outcomes none i (by omega)
  have hcount := count_callback_fanoutBody models outcomes sched i
  rw [hgd1, hgd2] at hcount
  have hone : sched.count i = 1 :=
    List.count_eq_one_of_mem (hsched.nodup_iff.2 (List.nodup_range models.length))
      (hsched.mem_iff.2 (List.mem_range.2 hi))
  have hret : (([FanoutEvent.returned (query_models_parallel models outcomes)]).count
      (FanoutEvent.callback i (models.get ⟨i, hi⟩) (outcomes.get ⟨i, by omega⟩))) = 0 := by
    simp [List.count_singleton]
  rw [fanoutTrace, List.count_append, hcount, hret, hone]

/-- Claim C1: for a non-empty list of distinct models, the parallel fanout
returns only after every per-model call has resolved (the `returned` event is
strictly last, after a `resolved` event for every task index), and the result
map's key list is exactly the requested model list — one entry per model, each
holding that model's task outcome (a success dict or the `None` failure
sentinel) — regardless of how many calls failed. -/
theorem C1_fanout_returns_complete_map
    (models : List String) (outcomes : List (Option LLMResult)) (sched : List Nat)
    (hne : models ≠ []) (hnd : models.Nodup)
    (hlen : outcomes.length = models.length)
    (hsched : List.Perm sched (List.range models.length)) :
    (fanoutTrace models outcomes sched =
        fanoutBody models outcomes sched ++
          [FanoutEvent.returned (query_models_parallel models outcomes)] ∧
      ∀ i, i < models.length → FanoutEvent.resolved i ∈ fanoutBody models outcomes sched) ∧
    (query_models_parallel models outcomes).map Prod.fst = models ∧
    (query_models_parallel models outcomes).length = models.length ∧
    query_models_parallel models outcomes ≠ [] ∧
    ∀ i (hi : i < models.length),
      pyLookup (models.get ⟨i, hi⟩) (query_models_parallel models outcomes) =
        some (outcomes.get ⟨i, by omega⟩) := by
  have hkeys : (models.zip outcomes).map Prod.fst = models :=
    List.map_fst_zip models outcomes (by omega)
  have hzip : query_models_parallel models outcomes = models.zip outcomes := by
    unfold query_models_parallel
    exact pyDictOfList_nodup (models.zip outcomes) (by rw [hkeys]; exact hnd)
  refine ⟨⟨rfl, ?_⟩, ?_, ?_, ?_, ?_⟩
  · intro i hi
    exact resolved_mem_fanoutBody models outcomes sched i
      (hsched.mem_iff.2 (List.mem_range.2 hi))
  · rw [hzip, hkeys]
  · rw [hzip]
    rw [List.length_zip]
    omega
  · rw [hzip]
    cases models with
    | nil => exact absurd rfl hne
    | cons m rest =>
      cases outcomes with
      | nil => simp at hlen
      | cons o orest => simp
  · intro i hi
    rw [hzip, pyLookup_zip_nodup models outcomes i hi hnd hlen,
      List.getElem?_eq_getElem (by omega)]
    rfl

/-- Witness for C1 at a concrete two-model panel with one failed call. -/
theorem C1_fanout_returns_complete_map_witness :
    (["m1", "m2"] : List String).Nodup ∧
    (query_models_parallel ["m1", "m2"] [some ⟨"ok", ""⟩, none]).map Prod.fst = ["m1", "m2"] :=
  ⟨by decide,
    (C1_fanout_returns_complete_map ["m1", "m2"] [some ⟨"ok", ""⟩, none] [1, 0]
      (by decide) (by decide) (by decide) (by decide)).2.1⟩

/-- Claim C2: with `on_model_complete` supplied, the callback for each model of
the input list fires exactly once in the fanout trace, carrying that model's
identifier and its result (success dict or `None` alike), immediately after
that model's call resolves, and strictly before the fanout's `returned` event. -/
theorem C2_callback_exactly_once
    (models : List String) (outcomes : List (Option LLMResult)) (sched : List Nat)
    (hnd : models.Nodup) (hlen : outcomes.length = models.length)
    (hsched : List.Perm sched (List.range models.length))
    (i : Nat) (hi : i < models.length) :
    (fanoutTrace models outcomes sched).count
        (FanoutEvent.callback i (models.get ⟨i, hi⟩) (outcomes.get ⟨i, by omega⟩)) = 1 ∧
    (∃ t1 t2, fanoutTrace models outcomes sched =
        t1 ++ [FanoutEvent.resolved i,
               FanoutEvent.callback i (models.get ⟨i, hi⟩) (outcomes.get ⟨i, by omega⟩)] ++ t2) ∧
    FanoutEvent.callback i (models.get ⟨i, hi⟩) (outcomes.get ⟨i, by omega⟩) ∈
      fanoutBody models outcomes sched ∧
    fanoutTrace models outcomes sched =
      fanoutBody models outcomes sched ++
        [FanoutEvent.returned (query_models_parallel models outcomes)] := by
  have hgd1 : models.getD i "" = models.get ⟨i, hi⟩ := getD_eq_get_of_lt models "" i hi
  have hgd2 : outcomes.getD i none = outcomes.get ⟨i, by omega⟩ :=
    getD_eq_get_of_lt outcomes none i (by omega)
  have hmem : i ∈ sched := hsched.mem_iff.2 (List.mem_range.2 hi)
  obtain ⟨t1, t2, hseg⟩ := fanoutStep_segment models outcomes sched i hmem
  have hstep : fanoutStep models outcomes i =
      [FanoutEvent.resolved i,
       FanoutEvent.callback i (models.get ⟨i, hi⟩) (outcomes.get ⟨i, by omega⟩)] := by
    rw [fanoutStep, hgd1, hgd2]
  refine ⟨count_callback_fanoutTrace models outcomes sched i hi hlen hsched, ?_, ?_, rfl⟩
  · refine ⟨t1, t2 ++ [FanoutEvent.returned (query_models_parallel models outcomes)], ?_⟩
    rw [fanoutTrace, hseg, hstep]
    simp [List.append_assoc]
  · rw [hseg, hstep]
    simp

/-- Witness for C2: in a panel of two models the callback for index 0 fires
exactly once even though that model's call failed. -/
theorem C2_callback_exactly_once_witness :
    (["m1", "m2"] : List String).Nodup ∧
    (fanoutTrace ["m1", "m2"] [none, some ⟨"ok", ""⟩] [1, 0]).count
        (FanoutEvent.callback 0 "m1" none) = 1 :=
  ⟨by decide,
    (C2_callback_exactly_once ["m1", "m2"] [none, some ⟨"ok", ""⟩] [1, 0]
      (by decide) (by decide) (by decide) 0 (by decide)).1⟩

/-- Claim C3: the per-call timeout of `openrouter.query_models_parallel` is
enforced independently per model: a call whose duration exceeds the timeout is
abandoned and recorded as `None` in the result map, the entry of each model is
a function of that model's own call behavior alone, and changing a sibling's
behavior (e.g. making it time out) leaves every other model's entry unchanged. -/
theorem C3_timeout_isolated_per_call
    (models : List String) (behaviors : List CallBehavior) (timeout : Nat)
    (hnd : models.Nodup) (hlen : behaviors.length = models.length)
    (j : Nat) (hj : j < models.length) :
    pyLookup (models.get ⟨j, hj⟩) (openrouter_query_models_parallel models behaviors timeout) =
        some (query_with_timeout timeout (behaviors.get ⟨j, by omega⟩)) ∧
    (timeout < (behaviors.get ⟨j, by omega⟩).duration →
      pyLookup (models.get ⟨j, hj⟩) (openrouter_query_models_parallel models behaviors timeout) =
        some none) ∧
    ∀ behaviors2 : List CallBehavior, ∀ h2len : behaviors2.length = models.length,
      behaviors2.get ⟨j, by omega⟩ = behaviors.get ⟨j, by omega⟩ →
      pyLookup (models.get ⟨j, hj⟩)
          (openrouter_query_models_parallel models behaviors2 timeout) =
        pyLookup (models.get ⟨j, hj⟩)
          (openrouter_query_models_parallel models behaviors timeout) := by
  have hpoint : ∀ (bs : List CallBehavior) (hbl : bs.length = models.length),
      pyLookup (models.get ⟨j, hj⟩) (openrouter_query_models_parallel models bs timeout) =
        some (query_with_timeout timeout (bs.get ⟨j, by omega⟩)) := by
    intro bs hbl
    unfold openrouter_query_models_parallel query_models_parallel
    have hmlen : (bs.map (query_with_timeout timeout)).length = models.length := by
      simpa using hbl
    have hkeys : (models.zip (bs.map (query_with_timeout timeout))).map Prod.fst = models :=
      List.map_fst_zip models _ (by omega)
    rw [pyDictOfList_nodup _ (by rw [hkeys]; exact hnd),
      pyLookup_zip_nodup models _ j hj hnd hmlen,
      List.getElem?_eq_getElem (by omega : j < (bs.map (query_with_timeout timeout)).length)]
    simp
  refine ⟨hpoint behaviors hlen, ?_, ?_⟩
  · intro htime
    rw [hpoint behaviors hlen]
    rw [query_with_timeout, if_pos htime]
  · intro behaviors2 h2len h2eq
    rw [hpoint behaviors hlen, hpoint behaviors2 h2len, h2eq]

/-- Witness for C3 at a concrete panel where the second call exceeds the
timeout and the first does not. -/
theorem C3_timeout_isolated_per_call_witness :
    (["m1", "m2"] : List String).Nodup ∧
    pyLookup "m2"
        (openrouter_query_models_parallel ["m1", "m2"]
          [⟨5, some ⟨"fast", ""⟩⟩, ⟨100, some ⟨"slow", ""⟩⟩] 30) =
      some none :=
  ⟨by decide,
    by
      have h := (C3_timeout_isolated_per_call ["m1", "m2"]
        [⟨5, some ⟨"fast", ""⟩⟩, ⟨100, some ⟨"slow", ""⟩⟩] 30
        (by decide) (by decide) 1 (by decide)).2.1 (by decide)
      exact h⟩

/-- Claim C10: when the model list contains a duplicate identifier, the
dict-comprehension result holds strictly fewer entries than the input list;
every key maps to the value of its last occurrence in `zip(models, responses)`
(later duplicates overwrite earlier ones); and the per-element callback still
fires exactly once per list position. -/
theorem C10_duplicate_model_last_write_wins
    (models : List String) (outcomes : List (Option LLMResult)) (sched : List Nat)
    (hdup : ¬ models.Nodup) (hlen : outcomes.length = models.length)
    (hsched : List.Perm sched (List.range models.length)) :
    (query_models_parallel models outcomes).length < models.length ∧
    (∀ k, pyLookup k (query_models_parallel models outcomes) =
        lastLookup k (models.zip outcomes)) ∧
    ∀ i (hi : i < models.length),
      (fanoutTrace models outcomes sched).count
        (FanoutEvent.callback i (models.get ⟨i, hi⟩) (outcomes.get ⟨i, by omega⟩)) = 1 := by
  have hkeys : (models.zip outcomes).map Prod.fst = models :=
    List.map_fst_zip models outcomes (by omega)
  refine ⟨?_, ?_, ?_⟩
  · have hlt := length_foldl_pyDictInsert_lt (models.zip outcomes) []
      (Or.inr (by rw [hkeys]; exact hdup))
    have hlt2 : ((models.zip outcomes).foldl (fun d p => pyDictInsert d p.1 p.2) []).length <
        (models.zip outcomes).length := by simpa using hlt
    have hzlen : (models.zip outcomes).length = models.length := by
      rw [List.length_zip]; omega
    unfold query_models_parallel pyDictOfList
    omega
  · intro k
    exact pyLookup_pyDictOfList (Option LLMResult) (models.zip outcomes) k
  · intro i hi
    exact count_callback_fanoutTrace models outcomes sched i hi hlen hsched

/-- Witness for C10: the duplicated model keeps only its last task's result,
the map shrinks to two entries for a three-element list, and the callback for
every position still fires once. -/
theorem C10_duplicate_model_last_write_wins_witness :
    ¬ (["m1", "m2", "m1"] : List String).Nodup ∧
    (query_models_parallel ["m1", "m2", "m1"]
        [some ⟨"first", ""⟩, none, some ⟨"last", ""⟩]).length < 3 ∧
    pyLookup "m1" (query_models_parallel ["m1", "m2", "m1"]
        [some ⟨"first", ""⟩, none, some ⟨"last", ""⟩]) = some (some ⟨"last", ""⟩) := by
  have h := C10_duplicate_model_last_write_wins ["m1", "m2", "m1"]
    [some ⟨"first", ""⟩, none, some ⟨"last", ""⟩] [2, 0, 1]
    (by decide) (by decide) (by decide)
  exact ⟨by decide, h.1, by rw [h.2.1 "m1"]; decide⟩

/-- Claim C4: each provider adapter is a total function that returns the
uniform failure sentinel `None` on missing credentials, non-2xx status
(informational `1xx` and redirect `3xx` included, since httpx's
`raise_for_status` raises for them too), malformed response body, timeout,
and network error, and returns a success dict only for a parseable `2xx`
response with a non-empty choice list — so callers branch only on success
versus `None`. -/
theorem C4_adapters_never_raise
    (status : Nat) (body : ORBody) (ybody : YBody) (att : HttpAttempt ORBody)
    (key folder creds : Option String) (yatt : HttpAttempt YBody) (gatt : GigaAttempt) :
    openrouter_query_model HttpAttempt.timeout = none ∧
    openrouter_query_model HttpAttempt.networkError = none ∧
    (status < 200 ∨ 300 ≤ status →
      openrouter_query_model (HttpAttempt.response status body) = none) ∧
    openrouter_query_model (HttpAttempt.response status ORBody.invalidJson) = none ∧
    openrouter_query_model (HttpAttempt.response status (ORBody.json [])) = none ∧
    (∀ r, openrouter_query_model att = some r →
      ∃ s choices, att = HttpAttempt.response s (ORBody.json choices) ∧
        200 ≤ s ∧ s < 300 ∧ choices ≠ []) ∧
    (pyFalsy key = true ∨ pyFalsy folder = true →
      yandex_query_model key folder yatt = none) ∧
    yandex_query_model key folder HttpAttempt.timeout = none ∧
    yandex_query_model key folder HttpAttempt.networkError = none ∧
    (status < 200 ∨ 300 ≤ status →
      yandex_query_model key folder (HttpAttempt.response status ybody) = none) ∧
    yandex_query_model key folder (HttpAttempt.response status YBody.invalidJson) = none ∧
    yandex_query_model key folder (HttpAttempt.response status (YBody.json [])) = none ∧
    (pyFalsy creds = true → gigachat_query_model creds gatt = none) ∧
    gigachat_query_model creds GigaAttempt.sdkError = none ∧
    gigachat_query_model creds GigaAttempt.respNone = none ∧
    gigachat_query_model creds (GigaAttempt.response []) = none := by
  refine ⟨rfl, rfl, ?_, ?_, ?_, ?_, ?_, ?_, ?_, ?_, ?_, ?_, ?_, ?_, ?_, ?_⟩
  · intro h
    have hrs : raise_for_status status = true := by
      simp [raise_for_status]
      omega
    simp [openrouter_query_model, hrs]
  · by_cases h : raise_for_status status = true <;> simp [openrouter_query_model, h]
  · by_cases h : raise_for_status status = true <;> simp [openrouter_query_model, h]
  · intro r hr
    cases att with
    | timeout => simp [openrouter_query_model] at hr
    | networkError => simp [openrouter_query_model] at hr
    | response s b =>
      by_cases hs : raise_for_status s = true
      · simp [openrouter_query_model, hs] at hr
      · cases b with
        | invalidJson => simp [openrouter_query_model, hs] at hr
        | json choices =>
          cases choices with
          | nil => simp [openrouter_query_model, hs] at hr
          | cons c rest =>
            have hb : 200 ≤ s ∧ s < 300 := by
              simp [raise_for_status] at hs
              omega
            exact ⟨s, c :: rest, rfl, hb.1, hb.2, by simp⟩
  · intro h
    rcases h with h | h <;> simp [yandex_query_model, h]
  · by_cases hk : pyFalsy key <;> by_cases hf : pyFalsy folder <;>
      simp [yandex_query_model, hk, hf]
  · by_cases hk : pyFalsy key <;> by_cases hf : pyFalsy folder <;>
      simp [yandex_query_model, hk, hf]
  · intro h
    have hrs : raise_for_status status = true := by
      simp [raise_for_status]
      omega
    by_cases hk : pyFalsy key <;> by_cases hf : pyFalsy folder <;>
      simp [yandex_query_model, hk, hf, hrs]
  · by_cases hk : pyFalsy key <;> by_cases hf : pyFalsy folder <;>
      by_cases hs : raise_for_status status = true <;>
      simp [yandex_query_model, hk, hf, hs]
  · by_cases hk : pyFalsy key <;> by_cases hf : pyFalsy folder <;>
      by_cases hs : raise_for_status status = true <;>
      simp [yandex_query_model, hk, hf, hs]
  · intro h
    simp [gigachat_query_model, h]
  · by_cases hc : pyFalsy creds <;> simp [gigachat_query_model, hc]
  · by_cases hc : pyFalsy creds <;> simp [gigachat_query_model, hc]
  · by_cases hc : pyFalsy creds <;> simp [gigachat_query_model, hc]

/-- Witness for C4 at concrete failing inputs: a 401 response (missing or
bad OpenRouter key), a 301 redirect response with a well-formed body (httpx
`raise_for_status` raises on it), a Yandex call without an API key, and a
GigaChat call with empty credentials. -/
theorem C4_adapters_never_raise_witness :
    openrouter_query_model (HttpAttempt.response 401 (ORBody.json [])) = none ∧
    openrouter_query_model (HttpAttempt.response 301
      (ORBody.json [⟨some ⟨some "moved", none, none, none⟩⟩])) = none ∧
    yandex_query_model none (some "folder-id") HttpAttempt.timeout = none ∧
    gigachat_query_model (some "") GigaAttempt.sdkError = none := by
  have h := C4_adapters_never_raise 401 (ORBody.json []) YBody.invalidJson
    HttpAttempt.timeout none (some "folder-id") (some "") HttpAttempt.timeout
    GigaAttempt.sdkError
  have h301 := C4_adapters_never_raise 301
    (ORBody.json [⟨some ⟨some "moved", none, none, none⟩⟩]) YBody.invalidJson
    HttpAttempt.timeout none (some "folder-id") (some "") HttpAttempt.timeout
    GigaAttempt.sdkError
  exact ⟨h.2.2.1 (by decide), h301.2.2.1 (by decide),
    h.2.2.2.2.2.2.2.2.1, h.2.2.2.2.2.2.2.2.2.2.2.2.2.1⟩

theorem enrich_all_failed (text : String) (links : List ScrapedLink)
    (h : ∀ l ∈ links, l.success = false) :
    enrich_message_with_scraped_content text links = text := by
  have hfold : ∀ ls : List ScrapedLink, (∀ l0 ∈ ls, l0.success = false) →
      ∀ parts : List String,
      ls.foldl
        (fun parts link =>
          if link.success && !(pyFalsy link.markdown) then
            parts ++ ["\n\n<link_content url=\"" ++ link.url ++ "\">\n" ++
              pyTruncate (link.markdown.getD "") 50000 ++ "\n</link_content>"]
          else parts)
        parts = parts := by
    intro ls
    induction ls with
    | nil => intro _ parts; rfl
    | cons l rest ih =>
      intro hh parts
      have hl : l.success = false := hh l (by simp)
      have hcond : (l.success && !(pyFalsy l.markdown)) = false := by simp [hl]
      simp only [List.foldl_cons, hcond, Bool.false_eq_true, if_false]
      exact ih (fun l0 hm => hh l0 (by simp [hm])) parts
  rw [enrich_message_with_scraped_content, hfold links h [text]]
  simp [String.join]

/-- Counterexample to claim C7 as stated: with one extracted URL whose scrape
fails (total failure), `process_message_links` returns a NON-empty
link-metadata list — one entry, marked `success = false` — not `(raw, [])`. -/
theorem C7_total_failure_counterexample :
    (∀ u ∈ ex_extract "see example.com", (ex_scrape u).success = false) ∧
    (process_message_links ex_extract ex_scrape ex_netloc "see example.com").2.1 ≠ [] := by
  constructor
  · decide
  · decide

/-- Claim C7 amended: enrichment is best-effort; with no URLs present it
returns `(raw, [], {})` exactly, and when URLs are present but every scrape
fails it returns the raw text unchanged together with one metadata entry per
URL, each marked `success = false` (a non-empty list, not `[]`). -/
theorem C7_enrichment_best_effort
    (extract : String → List String) (scrape : String → ScrapedLink)
    (netloc : String → String) (text : String) :
    (extract text = [] →
      process_message_links extract scrape netloc text = (text, [], [])) ∧
    ((∀ u ∈ extract text, (scrape u).success = false) →
      (process_message_links extract scrape netloc text).1 = text ∧
      (process_message_links extract scrape netloc text).2.1.length =
        (extract text).length ∧
      ∀ m ∈ (process_message_links extract scrape netloc text).2.1,
        m.success = false) := by
  constructor
  · intro h
    simp [process_message_links, h]
  · intro hfail
    by_cases hurls : extract text = []
    · simp [process_message_links, hurls]
    · have hscraped : ∀ l ∈ (extract text).map scrape, l.success = false := by
        intro l hm
        rcases List.mem_map.1 hm with ⟨u, hu, rfl⟩
        exact hfail u hu
      refine ⟨?_, ?_, ?_⟩
      · simp only [process_message_links, hurls, if_false]
        exact enrich_all_failed text ((extract text).map scrape) hscraped
      · simp [process_message_links, hurls]
      · intro m hm
        simp only [process_message_links, hurls, if_false] at hm
        rcases List.mem_map.1 hm with ⟨l, hl, rfl⟩
        rcases List.mem_map.1 hl with ⟨u, hu, rfl⟩
        simp [to_dict, hfail u hu]

/-- Witness for the amended C7 at the concrete all-failed fixture. -/
theorem C7_enrichment_best_effort_witness :
    (∀ u ∈ ex_extract "see example.com", (ex_scrape u).success = false) ∧
    (process_message_links ex_extract ex_scrape ex_netloc "see example.com").1 =
      "see example.com" :=
  ⟨by decide,
    ((C7_enrichment_best_effort ex_extract ex_scrape ex_netloc "see example.com").2
      (by decide)).1⟩

/-- Claim C8: persisting a council turn fails loudly exactly when the target
conversation does not exist; on an existing conversation it appends exactly
one assistant message carrying the three stage payloads, and every other
path/document of the store is untouched — for the JSON file storage and the
MongoDB leads storage alike. -/
theorem C8_add_assistant_message_iff_exists
    (fs : FileStore) (db : MongoStore) (session_id conversation_id : String)
    (stage1 : List Stage1Result) (stage2 : List Stage2Verdict) (stage3 : PyStrDict)
    (scraped_links : Option (List LinkMeta)) :
    ((∃ e, add_assistant_message fs session_id conversation_id stage1 stage2 stage3 =
        Except.error e) ↔ get_conversation fs session_id conversation_id = none) ∧
    (∀ c, get_conversation fs session_id conversation_id = some c →
      c.id = conversation_id →
      ∃ fs2, add_assistant_message fs session_id conversation_id stage1 stage2 stage3 =
          Except.ok fs2 ∧
        get_conversation fs2 session_id conversation_id =
          some { c with messages :=
            c.messages ++ [StoredMessage.assistant stage1 stage2 stage3] } ∧
        ∀ p, p ≠ get_conversation_path session_id conversation_id → fs2 p = fs p) ∧
    ((∃ e, leads_add_assistant_message db session_id conversation_id stage1 stage2 stage3
        scraped_links = Except.error e) ↔ db (conversation_id, session_id) = none) ∧
    (∀ lc, db (conversation_id, session_id) = some lc →
      ∃ db2, leads_add_assistant_message db session_id conversation_id stage1 stage2 stage3
          scraped_links = Except.ok db2 ∧
        db2 (conversation_id, session_id) =
          some { lc with messages :=
            lc.messages ++ [leads_message_data stage1 stage2 stage3 scraped_links] } ∧
        ∀ key, key ≠ (conversation_id, session_id) → db2 key = db key) := by
  refine ⟨?_, ?_, ?_, ?_⟩
  · constructor
    · rintro ⟨e, he⟩
      cases hg : get_conversation fs session_id conversation_id with
      | none => rfl
      | some c => simp [add_assistant_message, hg] at he
    · intro hg
      exact ⟨"Conversation " ++ conversation_id ++ " not found", by
        simp [add_assistant_message, hg]⟩
  · intro c hg hid
    refine ⟨save_conversation fs session_id
      { c with messages := c.messages ++ [StoredMessage.assistant stage1 stage2 stage3] },
      by simp [add_assistant_message, hg], ?_, ?_⟩
    · simp [get_conversation, save_conversation, hid]
    · intro p hp
      simp only [save_conversation]
      rw [if_neg (by simpa [hid] using hp)]
  · constructor
    · rintro ⟨e, he⟩
      cases hg : db (conversation_id, session_id) with
      | none => rfl
      | some c => simp [leads_add_assistant_message, hg] at he
    · intro hg
      exact ⟨"Conversation " ++ conversation_id ++ " not found", by
        simp [leads_add_assistant_message, hg]⟩
  · intro lc hg
    refine ⟨(fun key =>
        if key = (conversation_id, session_id) then
          some { lc with messages :=
            lc.messages ++ [leads_message_data stage1 stage2 stage3 scraped_links] }
        else db key), ?_, ?_, ?_⟩
    · simp [leads_add_assistant_message, hg]
    · simp
    · intro key hk
      simp [hk]

/-- Witness for C8: on an empty store the persist call raises. -/
theorem C8_add_assistant_message_iff_exists_witness :
    get_conversation (fun _ => none) "alice" "conv1" = none ∧
    ∃ e, add_assistant_message (fun _ => none) "alice" "conv1" [] [] [] =
      Except.error e :=
  ⟨rfl,
    (C8_add_assistant_message_iff_exists (fun _ => none) (fun _ => none)
      "alice" "conv1" [] [] [] none).1.2 rfl⟩

theorem insSort_perm {α : Type} (le : α → α → Bool) (l : List α) :
    List.Perm (insSort le l) l := by
  induction l with
  | nil => exact List.Perm.refl _
  | cons x xs ih =>
    have h1 : List.Perm (insertSorted le x (insSort le xs)) (x :: insSort le xs) := by
      generalize insSort le xs = m
      induction m with
      | nil => exact List.Perm.refl _
      | cons y ys ihm =>
        simp only [insertSorted]
        split
        · exact List.Perm.refl _
        · exact List.Perm.trans (List.Perm.cons y ihm) (List.Perm.swap x y ys)
    exact List.Perm.trans h1 (List.Perm.cons x ih)

theorem mem_attachRanks {e : AggregateEntry} :
    ∀ (r : Nat) (l : List (String × Int)), e ∈ attachRanks r l → (e.model, e.score) ∈ l := by
  intro r l
  induction l generalizing r with
  | nil => intro h; simp [attachRanks] at h
  | cons p rest ih =>
    intro h
    obtain ⟨m, s⟩ := p
    rcases List.mem_cons.1 h with rfl | h2
    · simp
    · exact List.mem_cons.2 (Or.inr (ih (r + 1) h2))

theorem attachRanks_exists (l : List (String × Int)) :
    ∀ (r : Nat) (p : String × Int), p ∈ l →
      ∃ rk, AggregateEntry.mk p.1 p.2 rk ∈ attachRanks r l := by
  induction l with
  | nil => intro r p h; simp at h
  | cons q rest ih =>
    intro r p h
    obtain ⟨m, s⟩ := q
    rcases List.mem_cons.1 h with rfl | h2
    · exact ⟨r, by simp [attachRanks]⟩
    · obtain ⟨rk, hrk⟩ := ih (r + 1) p h2
      exact ⟨rk, List.mem_cons.2 (Or.inr hrk)⟩

theorem pyLookup_eq_some_mem {α : Type} (l : List (String × α)) (k : String) (v : α)
    (h : pyLookup k l = some v) : (k, v) ∈ l := by
  induction l with
  | nil => simp [pyLookup] at h
  | cons p rest ih =>
    obtain ⟨k0, v0⟩ := p
    by_cases hk : k0 = k
    · subst hk
      simp [pyLookup] at h
      simp [h]
    · simp only [pyLookup, hk, if_false] at h
      exact List.mem_cons.2 (Or.inr (ih h))

theorem pyLookup_of_mem_nodup {α : Type} (l : List (String × α)) (k : String) (v : α)
    (hnd : (l.map Prod.fst).Nodup) (hmem : (k, v) ∈ l) : pyLookup k l = some v := by
  induction l with
  | nil => simp at hmem
  | cons p rest ih =>
    obtain ⟨k0, v0⟩ := p
    rcases List.mem_cons.1 hmem with he | h2
    · cases he
      simp [pyLookup]
    · have hk : ¬ k0 = k := by
        intro he0
        subst he0
        have : k0 ∈ rest.map Prod.fst := List.mem_map.2 ⟨(k0, v), h2, rfl⟩
        exact (List.nodup_cons.1 (by simpa using hnd)).1 this
      simp only [pyLookup, hk, if_false]
      exact ih (List.Nodup.of_cons (by simpa using hnd)) h2

theorem pointsFrom_nonneg (k : Nat) (ltm : List (String × String)) (m : String) :
    ∀ (ranking : List String) (i : Nat), i + ranking.length ≤ k →
      0 ≤ pointsFrom k ltm m i ranking := by
  intro ranking
  induction ranking with
  | nil => intro i _; simp [pointsFrom]
  | cons label rest ih =>
    intro i hi
    simp only [List.length_cons] at hi
    have h1 : 0 ≤ pointsFrom k ltm m (i + 1) rest := ih (i + 1) (by omega)
    have h2 : (0 : Int) ≤ if pyLookup label ltm = some m then (k : Int) - 1 - (i : Int)
        else 0 := by
      split
      · have : i < k := by omega
        omega
      · exact le_refl 0
    show 0 ≤ (if pyLookup label ltm = some m then (k : Int) - 1 - (i : Int) else 0) +
      pointsFrom k ltm m (i + 1) rest
    omega

theorem pointsFrom_zero (k : Nat) (ltm : List (String × String)) (m : String) :
    ∀ (ranking : List String) (i : Nat), (∀ l ∈ ranking, ¬ pyLookup l ltm = some m) →
      pointsFrom k ltm m i ranking = 0 := by
  intro ranking
  induction ranking with
  | nil => intro i _; rfl
  | cons label rest ih =>
    intro i h
    have h1 : ¬ pyLookup label ltm = some m := h label (by simp)
    show (if pyLookup label ltm = some m then (k : Int) - 1 - (i : Int) else 0) +
      pointsFrom k ltm m (i + 1) rest = 0
    rw [if_neg h1, ih (i + 1) (fun l hl => h l (by simp [hl]))]
    simp

theorem sum_map_eq_length_mul {α : Type} (l : List α) (f : α → Int) (c : Int)
    (h : ∀ x ∈ l, f x = c) : (l.map f).sum = l.length * c := by
  induction l with
  | nil => simp
  | cons x rest ih =>
    have hx : f x = c := h x (by simp)
    have hr := ih (fun y hy => h y (by simp [hy]))
    simp only [List.map_cons, List.sum_cons, hx, hr, List.length_cons]
    push_cast
    ring

/-- Claim C6: the aggregate ranking is a pure, deterministic function of the
verdict set and label-to-model map (running it twice yields the identical
ordering); every listed score is non-negative; and a model whose label is
ranked first in every one of the `numVerdicts` verdicts receives the maximum
possible Borda score `(k - 1) * numVerdicts` for a panel of `k` anonymized
answers. -/
theorem C6_aggregate_ranking_pure_nonneg_max
    (verdicts : List Stage2Verdict) (label_to_model : List (String × String))
    (hkeys : (label_to_model.map Prod.fst).Nodup)
    (hv : ∀ v ∈ verdicts, v.orderedLabels.Nodup ∧
      ∀ l ∈ v.orderedLabels, l ∈ label_to_model.map Prod.fst) :
    calculate_aggregate_rankings verdicts label_to_model =
      calculate_aggregate_rankings verdicts label_to_model ∧
    (∀ e ∈ calculate_aggregate_rankings verdicts label_to_model, 0 ≤ e.score) ∧
    (∀ label0 model0, (label0, model0) ∈ label_to_model →
      (∀ p ∈ label_to_model, p.2 = model0 → p.1 = label0) →
      (∀ v ∈ verdicts, v.orderedLabels.head? = some label0) →
      ∃ e ∈ calculate_aggregate_rankings verdicts label_to_model,
        e.model = model0 ∧
        e.score = ((label_to_model.length : Int) - 1) * (verdicts.length : Int)) := by
  have hnonneg : ∀ m, 0 ≤ model_score verdicts label_to_model m := by
    intro m
    apply List.sum_nonneg
    intro x hx
    rcases List.mem_map.1 hx with ⟨v, hvmem, rfl⟩
    obtain ⟨hndv, hsub⟩ := hv v hvmem
    have hlen : v.orderedLabels.length ≤ label_to_model.length := by
      have := (hndv.subperm (fun l hl => hsub l hl)).length_le
      simpa using this
    exact pointsFrom_nonneg _ _ _ _ 0 (by omega)
  refine ⟨rfl, ?_, ?_⟩
  · intro e he
    have h1 := mem_attachRanks 1 _ he
    have h2 := (insSort_perm aggLE _).mem_iff.1 h1
    rcases List.mem_map.1 h2 with ⟨m, _, hme⟩
    rw [Prod.ext_iff] at hme
    have hs : e.score = model_score verdicts label_to_model m := hme.2.symm
    rw [hs]
    exact hnonneg m
  · intro label0 model0 hmem hinj hhead
    have hperV : ∀ v ∈ verdicts,
        verdict_points label_to_model.length label_to_model model0 v.orderedLabels =
          (label_to_model.length : Int) - 1 := by
      intro v hvmem
      obtain ⟨hndv, _⟩ := hv v hvmem
      have hh := hhead v hvmem
      cases hrk : v.orderedLabels with
      | nil => rw [hrk] at hh; simp at hh
      | cons l0 tail =>
        rw [hrk] at hh
        simp only [List.head?_cons, Option.some.injEq] at hh
        subst hh
        rw [hrk] at hndv
        have htail : ∀ l ∈ tail, ¬ pyLookup l label_to_model = some model0 := by
          intro l hl hlook
          have hpair := pyLookup_eq_some_mem _ _ _ hlook
          have hle : l = l0 := hinj (l, model0) hpair rfl
          rw [hle] at hl
          exact (List.nodup_cons.1 hndv).1 hl
        have hl0 : pyLookup l0 label_to_model = some model0 :=
          pyLookup_of_mem_nodup _ _ _ hkeys hmem
        have hunfold : verdict_points label_to_model.length label_to_model model0
            (l0 :: tail) =
            (if pyLookup l0 label_to_model = some model0 then
              (label_to_model.length : Int) - 1 - ((0 : Nat) : Int) else 0) +
            pointsFrom label_to_model.length label_to_model model0 1 tail := rfl
        rw [hunfold, if_pos hl0, pointsFrom_zero _ _ _ tail 1 htail]
        simp
    have hms : model_score verdicts label_to_model model0 =
        ((label_to_model.length : Int) - 1) * (verdicts.length : Int) := by
      unfold model_score
      rw [sum_map_eq_length_mul _ _ ((label_to_model.length : Int) - 1) hperV]
      ring
    have hmmem : model0 ∈ label_to_model.map Prod.snd :=
      List.mem_map.2 ⟨(label0, model0), hmem, rfl⟩
    have hpair_mem : (model0, model_score verdicts label_to_model model0) ∈
        (label_to_model.map Prod.snd).map
          (fun m => (m, model_score verdicts label_to_model m)) :=
      List.mem_map.2 ⟨model0, hmmem, rfl⟩
    have hsorted_mem := (insSort_perm aggLE _).mem_iff.2 hpair_mem
    obtain ⟨rk, hrkmem⟩ := attachRanks_exists _ 1 _ hsorted_mem
    exact ⟨⟨model0, model_score verdicts label_to_model model0, rk⟩, hrkmem, rfl, hms⟩

/-- Witness for C6 at a two-answer, two-verdict panel in which both judges
rank label `"A"` (model `"m1"`) first: `m1` scores `(2-1)*2 = 2`. -/
theorem C6_aggregate_ranking_pure_nonneg_max_witness :
    (([("A", "m1"), ("B", "m2")].map Prod.fst).Nodup) ∧
    ∃ e ∈ calculate_aggregate_rankings
        [⟨"j1", ["A", "B"], "c1", true⟩, ⟨"j2", ["A", "B"], "c2", true⟩]
        [("A", "m1"), ("B", "m2")],
      e.model = "m1" ∧ e.score = 2 := by
  refine ⟨by decide, ?_⟩
  obtain ⟨e, he, hm, hs⟩ := (C6_aggregate_ranking_pure_nonneg_max
    [⟨"j1", ["A", "B"], "c1", true⟩, ⟨"j2", ["A", "B"], "c2", true⟩]
    [("A", "m1"), ("B", "m2")] (by decide) (by decide)).2.2 "A" "m1"
    (by decide) (by decide) (by decide)
  exact ⟨e, he, hm, by rw [hs]; decide⟩

theorem partialOf_eq_some {α : Type} (t : Option (TaskOutcome α)) (r : α) :
    partialOf t = some r ↔ t = some (TaskOutcome.completed r) := by
  cases t with
  | none => simp [partialOf]
  | some s => cases s <;> simp [partialOf]

theorem cancelRunning_of_running {α : Type} (t : Option (TaskOutcome α))
    (h : t = some TaskOutcome.running) :
    cancelRunning t = some TaskOutcome.cancelled := by
  rw [h]; rfl

/-- Claim C5: on client cancellation the handler re-raises (`true` flag),
persists an assistant message exactly when Stage 1 or Stage 3 had completed,
and that message carries Stage 1's results, Stage-2 verdicts only when the
Stage-2 task itself fully completed (never a partial set), and the
"processing interrupted" sentinel whenever Stage 3 never completed; every
still-running task is cancelled.  (`h1`/`h3` encode the §3 invariants that a
completed Stage 1 returns one entry per panel model of a non-empty panel and
a completed Stage 3 returns a non-empty result dict.) -/
theorem C5_cancellation_persists_completed_stages (ctx : CancelCtx)
    (h1 : ∀ r, ctx.stage1 = some (TaskOutcome.completed r) → r ≠ [])
    (h3 : ∀ d, ctx.stage3 = some (TaskOutcome.completed d) → d ≠ []) :
    (cancellation_handler ctx).2.2 = true ∧
    ((cancellation_handler ctx).1.isSome = true ↔
      (∃ r, ctx.stage1 = some (TaskOutcome.completed r)) ∨
      (∃ d, ctx.stage3 = some (TaskOutcome.completed d))) ∧
    (∀ msg, (cancellation_handler ctx).1 = some msg →
      msg.stage1 = (partialOf ctx.stage1).getD [] ∧
      msg.stage2 = (match partialOf ctx.stage2 with
        | some p => p.1
        | none => []) ∧
      msg.stage3 = (partialOf ctx.stage3).getD interrupted_sentinel) ∧
    (ctx.scraping = some TaskOutcome.running →
      (cancellation_handler ctx).2.1.scraping = some TaskOutcome.cancelled) ∧
    (ctx.title = some TaskOutcome.running →
      (cancellation_handler ctx).2.1.title = some TaskOutcome.cancelled) ∧
    (ctx.stage1 = some TaskOutcome.running →
      (cancellation_handler ctx).2.1.stage1 = some TaskOutcome.cancelled) ∧
    (ctx.stage2 = some TaskOutcome.running →
      (cancellation_handler ctx).2.1.stage2 = some TaskOutcome.cancelled) ∧
    (ctx.stage3 = some TaskOutcome.running →
      (cancellation_handler ctx).2.1.stage3 = some TaskOutcome.cancelled) := by
  have hdef : (cancellation_handler ctx).1 =
      (if !((partialOf ctx.stage1).getD []).isEmpty ||
          pyTruthyDict (partialOf ctx.stage3) then
        some { stage1 := (partialOf ctx.stage1).getD [],
               stage2 := match partialOf ctx.stage2 with
                 | some p => p.1
                 | none => [],
               stage3 := match partialOf ctx.stage3 with
                 | some (x :: xs) => x :: xs
                 | _ => interrupted_sentinel }
      else none) := rfl
  refine ⟨rfl, ?_, ?_, ?_, ?_, ?_, ?_, ?_⟩
  · constructor
    · intro hs
      rw [hdef] at hs
      by_cases hcond : (!((partialOf ctx.stage1).getD []).isEmpty ||
          pyTruthyDict (partialOf ctx.stage3)) = true
      · rw [Bool.or_eq_true] at hcond
        rcases hcond with hb | hb
        · cases hpo : partialOf ctx.stage1 with
          | none => rw [hpo] at hb; simp at hb
          | some r => exact Or.inl ⟨r, (partialOf_eq_some ctx.stage1 r).1 hpo⟩
        · cases hpo : partialOf ctx.stage3 with
          | none => rw [hpo] at hb; simp [pyTruthyDict] at hb
          | some d =>
            cases d with
            | nil => rw [hpo] at hb; simp [pyTruthyDict] at hb
            | cons x xs =>
              exact Or.inr ⟨x :: xs, (partialOf_eq_some ctx.stage3 (x :: xs)).1 hpo⟩
      · rw [if_neg hcond] at hs
        simp at hs
    · intro hor
      rw [hdef]
      rcases hor with ⟨r, hr⟩ | ⟨d, hd⟩
      · have hpo : partialOf ctx.stage1 = some r := (partialOf_eq_some ctx.stage1 r).2 hr
        have hrne := h1 r hr
        rw [hpo]
        simp [List.isEmpty_iff, hrne]
      · have hpo : partialOf ctx.stage3 = some d := (partialOf_eq_some ctx.stage3 d).2 hd
        have hdne := h3 d hd
        cases d with
        | nil => exact absurd rfl hdne
        | cons x xs =>
          rw [hpo]
          simp [pyTruthyDict]
  · intro msg hm
    rw [hdef] at hm
    by_cases hcond : (!((partialOf ctx.stage1).getD []).isEmpty ||
        pyTruthyDict (partialOf ctx.stage3)) = true
    · rw [if_pos hcond] at hm
      injection hm with hmsg
      subst hmsg
      refine ⟨rfl, rfl, ?_⟩
      cases hpo : partialOf ctx.stage3 with
      | none => rfl
      | some d =>
        cases d with
        | nil =>
          have := h3 [] ((partialOf_eq_some ctx.stage3 []).1 hpo)
          exact absurd rfl this
        | cons x xs => rfl
    · rw [if_neg hcond] at hm
      simp at hm
  · intro h
    show cancelRunning ctx.scraping = some TaskOutcome.cancelled
    exact cancelRunning_of_running ctx.scraping h
  · intro h
    show cancelRunning ctx.title = some TaskOutcome.cancelled
    exact cancelRunning_of_running ctx.title h
  · intro h
    show cancelRunning ctx.stage1 = some TaskOutcome.cancelled
    exact cancelRunning_of_running ctx.stage1 h
  · intro h
    show cancelRunning ctx.stage2 = some TaskOutcome.cancelled
    exact cancelRunning_of_running ctx.stage2 h
  · intro h
    show cancelRunning ctx.stage3 = some TaskOutcome.cancelled
    exact cancelRunning_of_running ctx.stage3 h

/-- Witness for C5: cancellation mid–Stage-2 (Stage 1 completed with one
result, Stage 2 still running, Stage 3 never created) persists a message. -/
theorem C5_cancellation_persists_completed_stages_witness :
    (cancellation_handler
      ⟨some (TaskOutcome.completed ()), some TaskOutcome.running,
        some (TaskOutcome.completed [⟨"m1", "answer", "", true⟩]),
        some TaskOutcome.running, none⟩).2.2 = true ∧
    (cancellation_handler
      ⟨some (TaskOutcome.completed ()), some TaskOutcome.running,
        some (TaskOutcome.completed [⟨"m1", "answer", "", true⟩]),
        some TaskOutcome.running, none⟩).1.isSome = true := by
  have h := C5_cancellation_persists_completed_stages
    ⟨some (TaskOutcome.completed ()), some TaskOutcome.running,
      some (TaskOutcome.completed [⟨"m1", "answer", "", true⟩]),
      some TaskOutcome.running, none⟩
    (by
      intro r hr
      simp only [Option.some.injEq, TaskOutcome.completed.injEq] at hr
      rw [← hr]
      simp)
    (by intro d hd; simp at hd)
  exact ⟨h.1, h.2.1.2 (Or.inl ⟨[⟨"m1", "answer", "", true⟩], rfl⟩)⟩

theorem mem_stageLoop (evName : String) (rounds : List Nat) (leftover : Nat)
    (e : GenStep) (h : e ∈ stageLoop evName rounds leftover) :
    e = GenStep.emit evName ∨ e = GenStep.heartbeat := by
  unfold stageLoop modelCompleteBurst at h
  rw [List.mem_append] at h
  rcases h with h | h
  · rcases List.mem_flatten.1 h with ⟨l, hl, hel⟩
    rcases List.mem_map.1 hl with ⟨n, _, rfl⟩
    rw [List.mem_append] at hel
    rcases hel with he | he
    · exact Or.inl (List.eq_of_mem_replicate he)
    · simp at he
      exact Or.inr he
  · exact Or.inl (List.eq_of_mem_replicate h)

theorem mem_scrapingSection (hasUrls : Bool) (n : Nat) (ok : Bool) (e : GenStep)
    (h : e ∈ scrapingSection hasUrls n ok) :
    e = GenStep.emit "scraping_start" ∨ e = GenStep.createTask "scraping" ∨
    e = GenStep.heartbeat ∨ e = GenStep.getResult "scraping" ∨
    e = GenStep.emit "scraping_complete" ∨ e = GenStep.emit "scraping_error" := by
  unfold scrapingSection at h
  cases hasUrls with
  | false => simp at h
  | true =>
    simp only [if_true] at h
    rw [List.mem_append] at h
    rcases h with h | h
    · rw [List.mem_append] at h
      rcases h with h | h
      · rcases List.mem_cons.1 h with rfl | h2
        · exact Or.inl rfl
        · rcases List.mem_cons.1 h2 with rfl | h3
          · exact Or.inr (Or.inl rfl)
          · simp at h3
      · exact Or.inr (Or.inr (Or.inl (List.eq_of_mem_replicate h)))
    · rcases List.mem_cons.1 h with rfl | h2
      · exact Or.inr (Or.inr (Or.inr (Or.inl rfl)))
      · rcases List.mem_cons.1 h2 with rfl | h3
        · cases ok with
          | true => exact Or.inr (Or.inr (Or.inr (Or.inr (Or.inl rfl))))
          | false => exact Or.inr (Or.inr (Or.inr (Or.inr (Or.inr rfl))))
        · simp at h3

/-- Claim C9: in every streamed council run, the Stage-2 task is created and
`stage2_start` emitted only after the Stage-1 task's complete result map has
been read (`stage1_task.result()`) and `stage1_complete` emitted: the
generator's program order contains the contiguous block `getResult stage1;
emit stage1_complete; emit stage2_start; createTask stage2`, and neither the
Stage-2 creation nor the `stage2_start` event occurs anywhere else. -/
theorem C9_stage2_only_after_stage1_resolved
    (hasUrls : Bool) (scrapeRounds : Nat) (scrapeOk : Bool) (isFirst : Bool)
    (rounds1 : List Nat) (leftover1 : Nat) (rounds2 : List Nat) (leftover2 : Nat)
    (hb3 hbTitle : Nat) :
    ∃ t1 t2,
      event_generator hasUrls scrapeRounds scrapeOk isFirst rounds1 leftover1 rounds2
          leftover2 hb3 hbTitle =
        t1 ++ [GenStep.getResult "stage1", GenStep.emit "stage1_complete",
               GenStep.emit "stage2_start", GenStep.createTask "stage2"] ++ t2 ∧
      GenStep.createTask "stage2" ∉ t1 ∧ GenStep.emit "stage2_start" ∉ t1 ∧
      GenStep.createTask "stage2" ∉ t2 ∧ GenStep.emit "stage2_start" ∉ t2 ∧
      GenStep.getResult "stage1" ∉ t2 := by
  refine ⟨scrapingSection hasUrls scrapeRounds scrapeOk ++
      (if isFirst then [GenStep.createTask "title"] else []) ++
      [GenStep.emit "stage1_start", GenStep.createTask "stage1"] ++
      stageLoop "stage1_model_complete" rounds1 leftover1,
    stageLoop "stage2_model_complete" rounds2 leftover2 ++
      [GenStep.getResult "stage2", GenStep.emit "stage2_complete",
       GenStep.emit "stage3_start", GenStep.createTask "stage3"] ++
      List.replicate hb3 GenStep.heartbeat ++
      [GenStep.getResult "stage3", GenStep.emit "stage3_complete"] ++
      (if isFirst then
        List.replicate hbTitle GenStep.heartbeat ++
          [GenStep.getResult "title", GenStep.emit "title_complete"]
      else []) ++
      [GenStep.persistMsg, GenStep.emit "complete"], ?_, ?_, ?_, ?_, ?_, ?_⟩
  · simp only [event_generator, List.append_assoc]
  · intro h
    simp only [List.mem_append] at h
    rcases h with ((hs | ht) | he) | hl
    · rcases mem_scrapingSection _ _ _ _ hs with h0 | h0 | h0 | h0 | h0 | h0 <;>
        simp at h0
    · cases isFirst <;> simp at ht
    · simp at he
    · rcases mem_stageLoop _ _ _ _ hl with h0 | h0 <;> simp at h0
  · intro h
    simp only [List.mem_append] at h
    rcases h with ((hs | ht) | he) | hl
    · rcases mem_scrapingSection _ _ _ _ hs with h0 | h0 | h0 | h0 | h0 | h0 <;>
        simp at h0
    · cases isFirst <;> simp at ht
    · simp at he
    · rcases mem_stageLoop _ _ _ _ hl with h0 | h0 <;> simp at h0
  · intro h
    simp only [List.mem_append] at h
    rcases h with ((((((hl | ha) | hr) | hb) | ht) | hp)) 
    · rcases mem_stageLoop _ _ _ _ hl with h0 | h0 <;> simp at h0
    · simp at ha
    · exact absurd (List.eq_of_mem_replicate hr) (by simp)
    · simp at hb
    · cases isFirst with
      | false => simp at ht
      | true =>
        simp only [if_true, List.mem_append] at ht
        rcases ht with ht | ht
        · exact absurd (List.eq_of_mem_replicate ht) (by simp)
        · simp at ht
    · simp at hp
  · intro h
    simp only [List.mem_append] at h
    rcases h with ((((((hl | ha) | hr) | hb) | ht) | hp))
    · rcases mem_stageLoop _ _ _ _ hl with h0 | h0 <;> simp at h0
    · simp at ha
    · exact absurd (List.eq_of_mem_replicate hr) (by simp)
    · simp at hb
    · cases isFirst with
      | false => simp at ht
      | true =>
        simp only [if_true, List.mem_append] at ht
        rcases ht with ht | ht
        · exact absurd (List.eq_of_mem_replicate ht) (by simp)
        · simp at ht
    · simp at hp
  · intro h
    simp only [List.mem_append] at h
    rcases h with ((((((hl | ha) | hr) | hb) | ht) | hp))
    · rcases mem_stageLoop _ _ _ _ hl with h0 | h0 <;> simp at h0
    · simp at ha
    · exact absurd (List.eq_of_mem_replicate hr) (by simp)
    · simp at hb
    · cases isFirst with
      | false => simp at ht
      | true =>
        simp only [if_true, List.mem_append] at ht
        rcases ht with ht | ht
        · exact absurd (List.eq_of_mem_replicate ht) (by simp)
        · simp at ht
    · simp at hp
